import Mathlib

/-!
Verification of the core indexing engine of the perpetual-DEX SDK.

The Rust sources are shallowly embedded: contract-scaled unsigned decimals
(fastnum UD64/UD128) become rationals, machine integers become naturals,
hash maps become association lists, and fallible operations return Except.
Each definition mirrors the Rust item of the same name.
-/

namespace DexSdk

/-- `types::StateInstant` — a (block number, block timestamp) pair
identifying the chain-time of a state observation. -/
structure StateInstant where
  block_number : Nat
  block_timestamp : Nat
deriving DecidableEq, Repr

/-- `StateInstant::next` advances the block number by one, timestamp unchanged. -/
def StateInstant.next (s : StateInstant) : StateInstant :=
  { block_number := s.block_number + 1, block_timestamp := s.block_timestamp }

/-- `types::EventContext<α>` — an event payload together with its
(tx hash, tx index, log index) provenance. -/
structure EventContext (α : Type) where
  tx_hash : Nat
  tx_index : Nat
  log_index : Nat
  event : α
deriving DecidableEq, Repr

/-- `EventContext::pass` — re-wrap a new payload with the same provenance. -/
def EventContext.pass (c : EventContext α) (ev : β) : EventContext β :=
  { tx_hash := c.tx_hash, tx_index := c.tx_index, log_index := c.log_index, event := ev }

/-- `types::BlockEvents<α>` — the events of one block together with its instant. -/
structure BlockEvents (α : Type) where
  instant : StateInstant
  events : List α
deriving DecidableEq, Repr

/-- `error::DexError` — the error kinds relevant to the verified components
(§7 of the spec; the variants appearing in the provided sources). -/
inductive DexError where
  | invalidRequest (msg : String)
  | transport
  | decode
  | orderNotFound (perpetual : Nat) (order_id : Nat)
deriving DecidableEq, Repr

/-! ## Raw event stream (`src/stream.rs`, `fn raw`) -/

/-- Block header as returned by `Provider::get_block`; only the timestamp
is consumed by the stream. -/
structure BlockHeader where
  timestamp : Nat
deriving DecidableEq, Repr

/-- One log entry returned by `Provider::get_logs`. The inner ABI payload is
abstracted to its decode result: `none` models a decode failure of
`ExchangeEvents::decode_log`, `some ev` the decoded event (payload abstracted
to a number: its content is irrelevant to the stream's control flow). -/
structure RawLog where
  transaction_hash : Option Nat
  transaction_index : Option Nat
  log_index : Option Nat
  decoded : Option Nat
deriving DecidableEq, Repr

/-- One poll of the provider for a given block: the joined result of
`get_block` and `get_logs`. `rpcError` models a transport-level failure of
either call. -/
inductive PollResponse where
  | rpcError
  | answer (block : Option BlockHeader) (logs : List RawLog)
deriving DecidableEq, Repr

/-- The decode loop of `fn raw`: build `RawEvent`s from logs in order,
aborting with a decode error at the first undecodable log
(`ExchangeEvents::decode_log(..).map_err(DexError::from)?`). -/
def decodeLogs : List RawLog → Except DexError (List (EventContext Nat))
  | [] => .ok []
  | log :: rest =>
    match log.decoded with
    | none => .error .decode
    | some ev =>
      (decodeLogs rest).map fun evs =>
        { tx_hash := log.transaction_hash.getD 0
          tx_index := log.transaction_index.getD 0
          log_index := log.log_index.getD 0
          event := ev } :: evs

/-- The body of the poll loop of `fn raw`: turn one provider response for
block `block_num` into the `result` value the loop dispatches on.
A missing block yields `DexError::InvalidRequest("block is not available
yet")`; a transport failure or a decode failure is any other error. -/
def pollResult (block_num : Nat) (resp : PollResponse) :
    Except DexError (BlockEvents (EventContext Nat)) :=
  match resp with
  | .rpcError => .error .transport
  | .answer none _ => .error (.invalidRequest "block is not available yet")
  | .answer (some header) logs =>
    (decodeLogs logs).map fun events =>
      { instant := { block_number := block_num, block_timestamp := header.timestamp }
        events := events }

/-- The unfold loop of `fn raw`, driven by a finite oracle of provider
responses (one response per poll). On `Ok` the item is yielded and the
polled block number advances by one; on `InvalidRequest` the stream sleeps
and retries the same block number without yielding; on any other error the
item is yielded as an error and the block number is kept. -/
def rawStream : Nat → List PollResponse → List (Except DexError (BlockEvents (EventContext Nat)))
  | _, [] => []
  | bn, p :: ps =>
    match pollResult bn p with
    | .ok b => .ok b :: rawStream (bn + 1) ps
    | .error (.invalidRequest _) => rawStream bn ps
    | .error e => .error e :: rawStream bn ps

/-- Block numbers of the successful items of a stream run, in order. -/
def okBlockNumbers : List (Except DexError (BlockEvents (EventContext Nat))) → List Nat
  | [] => []
  | .ok b :: rest => b.instant.block_number :: okBlockNumbers rest
  | .error _ :: rest => okBlockNumbers rest

theorem pollResult_ok_block_number {bn : Nat} {p : PollResponse}
    {b : BlockEvents (EventContext Nat)} (h : pollResult bn p = .ok b) :
    b.instant.block_number = bn := by
  cases p with
  | rpcError => simp [pollResult] at h
  | answer blk logs =>
    cases blk with
    | none => simp [pollResult] at h
    | some header =>
      simp only [pollResult] at h
      cases hd : decodeLogs logs with
      | ok evs => rw [hd] at h; simp [Except.map] at h; rw [← h]
      | error e => rw [hd] at h; simp [Except.map] at h

theorem okBlockNumbers_rawStream (ps : List PollResponse) (bn : Nat) :
    okBlockNumbers (rawStream bn ps) =
      List.range' bn (okBlockNumbers (rawStream bn ps)).length := by
  induction ps generalizing bn with
  | nil => simp [rawStream, okBlockNumbers]
  | cons p ps ih =>
    cases h : pollResult bn p with
    | ok b =>
      have hb := pollResult_ok_block_number h
      simp only [rawStream, h, okBlockNumbers, hb, List.length_cons, List.range'_succ]
      exact congrArg (List.cons bn) (ih (bn + 1))
    | error e =>
      cases e with
      | invalidRequest m => simpa only [rawStream, h] using ih bn
      | transport => simpa only [rawStream, h, okBlockNumbers] using ih bn
      | decode => simpa only [rawStream, h, okBlockNumbers] using ih bn
      | orderNotFound a b => simpa only [rawStream, h, okBlockNumbers] using ih bn

/-- C1: Starting the raw stream at block `bn`, the successful items carry
strictly increasing consecutive block numbers `bn, bn+1, …` with no gaps or
duplicates, for every sequence of provider responses; and a
"block is not available yet" response never yields an item and never
advances the polled block number (the same block is retried). -/
theorem raw_stream_gap_free_monotonic (bn : Nat) (ps : List PollResponse) :
    okBlockNumbers (rawStream bn ps) =
      List.range' bn (okBlockNumbers (rawStream bn ps)).length
    ∧ ∀ (p : PollResponse) (m : String),
        pollResult bn p = .error (.invalidRequest m) →
        rawStream bn (p :: ps) = rawStream bn ps := by
  refine ⟨okBlockNumbers_rawStream ps bn, ?_⟩
  intro p m h
  simp [rawStream, h]

/-- Instantiation of the gap-free stream theorem: two "not available"
responses for the same block followed by successes yield exactly the
consecutive blocks 7, 8 (spec §8 scenario 6). -/
theorem raw_stream_gap_free_monotonic_witness :
    okBlockNumbers (rawStream 7
        [.answer none [], .answer none [],
         .answer (some ⟨100⟩) [], .answer (some ⟨101⟩) []]) = [7, 8]
    ∧ pollResult 7 (.answer none []) = .error (.invalidRequest "block is not available yet")
    ∧ rawStream 7 ((.answer none []) ::
        [.answer (some ⟨100⟩) [], .answer (some ⟨101⟩) []]) =
      rawStream 7 [.answer (some ⟨100⟩) [], .answer (some ⟨101⟩) []] := by
  refine ⟨by decide, rfl, ?_⟩
  exact (raw_stream_gap_free_monotonic 7
    [.answer (some ⟨100⟩) [], .answer (some ⟨101⟩) []]).2
    (.answer none []) "block is not available yet" rfl

/-! ## Numeric converter and order/trade types -/

/-- Modelled from the spec: `num::Converter::from_unsigned` of the module
`num` (not among the provided sources) maps the contract's unsigned integer
scaled by `10^-decimals` to a decimal value (§4.1). -/
def Converter.from_unsigned (decimals : Nat) (integer : Nat) : ℚ :=
  (integer : ℚ) / 10 ^ decimals

/-- `types::OrderSide`. -/
inductive OrderSide where
  | Ask
  | Bid
deriving DecidableEq, Repr

/-- `types::OrderType`. -/
inductive OrderType where
  | OpenLong
  | OpenShort
  | CloseLong
  | CloseShort
deriving DecidableEq, Repr

/-- `OrderType::side` — OpenLong and CloseShort are Bid; OpenShort and
CloseLong are Ask. -/
def OrderType.side : OrderType → OrderSide
  | .OpenLong | .CloseShort => .Bid
  | .OpenShort | .CloseLong => .Ask

/-- `impl From<u8> for OrderType`; the `unreachable!()` arm is `none`
(a panic). -/
def orderTypeFromU8 : Nat → Option OrderType
  | 0 => some .OpenLong
  | 1 => some .OpenShort
  | 2 => some .CloseLong
  | 3 => some .CloseShort
  | _ => none

/-- `types::MakerFill` — a single maker fill within a taker trade
(normalized decimals). -/
structure MakerFill where
  log_index : Nat
  maker_account_id : Nat
  maker_order_id : Nat
  price : ℚ
  size : ℚ
  fee : ℚ
deriving DecidableEq, Repr

/-- `types::Trade` — one taker matched against one or more makers. -/
structure Trade where
  perpetual_id : Nat
  taker_account_id : Nat
  taker_side : OrderSide
  taker_fee : ℚ
  maker_fills : List MakerFill
deriving DecidableEq, Repr

/-- `Trade::total_size` — total size filled across all makers. -/
def Trade.total_size (t : Trade) : ℚ :=
  (t.maker_fills.map fun f => f.size).sum

/-- `Trade::avg_price` — volume-weighted average price across all maker
fills; `None` if there are no fills or the total size is zero. -/
def Trade.avg_price (t : Trade) : Option ℚ :=
  if t.maker_fills.isEmpty then none
  else
    let total_value : ℚ := (t.maker_fills.map fun f => f.price * f.size).sum
    let total_size := t.total_size
    if total_size = 0 then none
    else some (total_value / total_size)

/-- `Trade::total_maker_fees` — total maker fees paid across all fills. -/
def Trade.total_maker_fees (t : Trade) : ℚ :=
  (t.maker_fills.map fun f => f.fee).sum

/-- C7: `total_size` and `total_maker_fees` sum sizes and fees of the maker
fills, and `avg_price` is `(Σ price·size) / (Σ size)`, returning `None`
exactly when there are no fills or the total size is zero; all three are
pure functions of the `Trade` value. -/
theorem trade_derived_functions (t : Trade) :
    Trade.total_size t = (t.maker_fills.map fun f => f.size).sum
    ∧ Trade.total_maker_fees t = (t.maker_fills.map fun f => f.fee).sum
    ∧ (Trade.avg_price t = none ↔ t.maker_fills = [] ∨ Trade.total_size t = 0)
    ∧ (t.maker_fills ≠ [] → Trade.total_size t ≠ 0 →
        Trade.avg_price t =
          some ((t.maker_fills.map fun f => f.price * f.size).sum / Trade.total_size t)) := by
  refine ⟨rfl, rfl, ?_, ?_⟩
  · unfold Trade.avg_price
    by_cases he : t.maker_fills.isEmpty <;>
      by_cases hz : Trade.total_size t = 0 <;>
      simp_all [List.isEmpty_iff]
  · intro h1 h2
    unfold Trade.avg_price
    simp [List.isEmpty_iff, h1, h2]

/-- A concrete two-fill trade used to instantiate the derived-function
theorem. -/
def tW : Trade :=
  { perpetual_id := 16, taker_account_id := 1, taker_side := .Bid, taker_fee := 2,
    maker_fills :=
      [{ log_index := 0, maker_account_id := 0, maker_order_id := 1,
         price := 100, size := 1, fee := 2 },
       { log_index := 1, maker_account_id := 2, maker_order_id := 3,
         price := 115, size := 2, fee := 3 }] }

/-- Instantiation of the trade derived-function theorem on a concrete
two-fill trade: total size 3, volume-weighted price 110, fees 5. -/
theorem trade_derived_functions_witness :
    (Trade.total_size tW = 3 ∧ Trade.total_maker_fees tW = 5
      ∧ Trade.avg_price tW = some 110) ∧
    (Trade.total_size tW = (tW.maker_fills.map fun f => f.size).sum
      ∧ Trade.total_maker_fees tW = (tW.maker_fills.map fun f => f.fee).sum
      ∧ (Trade.avg_price tW = none ↔ tW.maker_fills = [] ∨ Trade.total_size tW = 0)
      ∧ (tW.maker_fills ≠ [] → Trade.total_size tW ≠ 0 →
          Trade.avg_price tW =
            some ((tW.maker_fills.map fun f => f.price * f.size).sum / Trade.total_size tW))) :=
  ⟨by refine ⟨by norm_num [Trade.total_size, tW], by norm_num [Trade.total_maker_fees, tW], ?_⟩
      norm_num [Trade.avg_price, Trade.total_size, tW],
   trade_derived_functions tW⟩

/-! ## Derived trade stream (`crates/sdk/src/stream/trade.rs`) -/

/-- The raw `MakerOrderFilled` contract event fields consumed by the trade
processor. -/
structure MakerOrderFilledEv where
  accountId : Nat
  orderId : Nat
  perpId : Nat
  pricePNS : Nat
  lotLNS : Nat
  feeCNS : Nat
deriving DecidableEq, Repr

/-- The raw `TakerOrderFilled` contract event fields consumed by the trade
processor. -/
structure TakerOrderFilledEv where
  feeCNS : Nat
deriving DecidableEq, Repr

/-- `stream::trade::PerpetualConverters` — the two converters of a single
perpetual, represented by their decimal scales. -/
structure PerpetualConverters where
  price_decimals : Nat
  size_decimals : Nat
deriving DecidableEq, Repr

/-- `stream::trade::NormalizationConfig` — collateral converter plus
per-perpetual converters (the `HashMap` as an association list). -/
structure NormalizationConfig where
  collateral_decimals : Nat
  perpetuals : List (Nat × PerpetualConverters)
deriving DecidableEq, Repr

/-- `HashMap::get` on an association list. -/
def mapGet [DecidableEq κ] : List (κ × β) → κ → Option β
  | [], _ => none
  | (k2, v) :: rest, k => if k = k2 then some v else mapGet rest k

/-- `stream::trade::OrderContext` — per-transaction taker context. -/
structure TradeOrderContext where
  account_id : Nat
  side : OrderSide
deriving DecidableEq, Repr

/-- `stream::trade::PendingMakerFill` — a maker fill buffered until the
taker fill of the same transaction arrives. -/
structure PendingMakerFill where
  tx_hash : Nat
  log_index : Nat
  perpetual_id : Nat
  maker_account_id : Nat
  maker_order_id : Nat
  price : ℚ
  size : ℚ
  maker_fee : ℚ
deriving DecidableEq, Repr

/-- `stream::trade::TradeProcessor` — the per-block pure processor state. -/
structure TradeProcessor where
  config : NormalizationConfig
  order_context : Option TradeOrderContext
  pending_maker_fills : List PendingMakerFill
  prev_tx_index : Option Nat
deriving DecidableEq, Repr

/-- A Rust panic, carrying the `expect` message. -/
inductive PanicKind where
  | panicked (msg : String)
deriving DecidableEq, Repr

/-- `TradeProcessor::handle_maker_fill`. Fills of perpetuals absent from the
config are skipped; otherwise the fill is normalized and buffered. The
`NonZeroU16::new(e.orderId).expect("non-zero maker order ID")` is a panic
when the contract-delivered order id is 0, modelled as the error case. -/
def TradeProcessor.handle_maker_fill (st : TradeProcessor)
    (event : EventContext Nat) (e : MakerOrderFilledEv) :
    Except PanicKind TradeProcessor :=
  match mapGet st.config.perpetuals e.perpId with
  | none => .ok st
  | some converters =>
    if e.orderId = 0 then .error (.panicked "non-zero maker order ID")
    else .ok { st with
      pending_maker_fills := st.pending_maker_fills ++
        [{ tx_hash := event.tx_hash
           log_index := event.log_index
           perpetual_id := e.perpId
           maker_account_id := e.accountId
           maker_order_id := e.orderId
           price := Converter.from_unsigned converters.price_decimals e.pricePNS
           size := Converter.from_unsigned converters.size_decimals e.lotLNS
           maker_fee := Converter.from_unsigned st.config.collateral_decimals e.feeCNS }] }

/-- `TradeProcessor::handle_taker_fill`. The pending buffer is taken
(cleared) unconditionally; a trade is emitted only when the buffer is
non-empty, an order context is tracked, and every buffered maker fill has
the taker's `tx_hash`. -/
def TradeProcessor.handle_taker_fill (st : TradeProcessor)
    (event : EventContext Nat) (e : TakerOrderFilledEv) :
    Option (EventContext Trade) × TradeProcessor :=
  let makers := st.pending_maker_fills
  let cleared := { st with pending_maker_fills := [] }
  if makers.isEmpty then (none, cleared)
  else
    match st.order_context with
    | none => (none, cleared)
    | some ctx =>
      if makers.all fun m => m.tx_hash = event.tx_hash then
        match makers.head? with
        | none => (none, cleared)
        | some first =>
          (some (event.pass
            { perpetual_id := first.perpetual_id
              taker_account_id := ctx.account_id
              taker_side := ctx.side
              taker_fee := Converter.from_unsigned st.config.collateral_decimals e.feeCNS
              maker_fills := makers.map fun m =>
                { log_index := m.log_index
                  maker_account_id := m.maker_account_id
                  maker_order_id := m.maker_order_id
                  price := m.price
                  size := m.size
                  fee := m.maker_fee } }), cleared)
      else (none, cleared)

/-! ## Order state (`crates/sdk/src/state/order.rs`) -/

/-- `state::order::OrderParseError` — error creating an Order from exchange
data. -/
inductive OrderParseError where
  | zeroOrderId
deriving DecidableEq, Repr

/-- `state::Order` — a single active order in a perpetual book. Order id is
kept as a natural; the constructors of the source guarantee it non-zero
(`NonZeroU16`). Decimal values are rationals. -/
structure Order where
  instant : StateInstant
  request_id : Option Nat
  client_order_id : Option Nat
  order_id : Nat
  otype : OrderType
  account_id : Nat
  price : ℚ
  size : ℚ
  placed_size : Option ℚ
  expiry_block : Nat
  leverage : ℚ
  post_only : Option Bool
  fill_or_kill : Option Bool
  immediate_or_cancel : Option Bool
  prev_order_id : Option Nat
  next_order_id : Option Nat
deriving DecidableEq, Repr

/-- `abi::dex::Exchange::Order` — the contract's stored-order ABI struct
(the fields `from_snapshot` consumes, as raw integers). -/
structure RawSnapshotOrder where
  orderId : Nat
  prevOrderId : Nat
  nextOrderId : Nat
  orderType : Nat
  accountId : Nat
  priceONS : Nat
  lotLNS : Nat
  expiryBlock : Nat
  leverageHdths : Nat
deriving DecidableEq, Repr

/-- `Order::from_snapshot`. A zero order id is rejected first with
`OrderParseError::ZeroOrderId`; afterwards the `unreachable!()` in
`OrderType::from(u8)` would panic on an out-of-range order type (outer
error). A raw link pointer of 0 means "no link" (`None`). -/
def Order.from_snapshot (instant : StateInstant) (raw : RawSnapshotOrder)
    (base_price : ℚ) (price_decimals size_decimals leverage_decimals : Nat) :
    Except PanicKind (Except OrderParseError Order) :=
  if raw.orderId = 0 then .ok (.error .zeroOrderId)
  else
    match orderTypeFromU8 raw.orderType with
    | none => .error (.panicked "internal error: entered unreachable code")
    | some t => .ok (.ok
      { instant := instant
        request_id := none
        client_order_id := none
        order_id := raw.orderId
        otype := t
        account_id := raw.accountId
        price := base_price + Converter.from_unsigned price_decimals raw.priceONS
        size := Converter.from_unsigned size_decimals raw.lotLNS
        placed_size := none
        expiry_block := raw.expiryBlock
        leverage := Converter.from_unsigned leverage_decimals raw.leverageHdths
        post_only := none
        fill_or_kill := none
        immediate_or_cancel := none
        prev_order_id := if raw.prevOrderId = 0 then none else some raw.prevOrderId
        next_order_id := if raw.nextOrderId = 0 then none else some raw.nextOrderId })

/-- `Order::is_expired` — `expiry_block ≠ 0 ∧ expiry_block ≤
instant.block_number`. -/
def Order.is_expired (o : Order) : Bool :=
  o.expiry_block ≠ 0 && o.expiry_block ≤ o.instant.block_number

/-- `Order::update_if_expired` — advance the order's instant when the
expiry block has been reached and the order is not already marked expired;
returns whether a transition happened together with the updated order. -/
def Order.update_if_expired (o : Order) (instant : StateInstant) : Bool × Order :=
  if o.expiry_block ≠ 0 && o.expiry_block ≤ instant.block_number && !o.is_expired
  then (true, { o with instant := instant })
  else (false, o)

/-- C5: `is_expired` holds exactly when `expiry_block ≠ 0` and
`expiry_block ≤ instant.block_number`; consequently an order with
`expiry_block = 0` is never reported expired and `update_if_expired`
returns `false` and leaves it unchanged at every instant. -/
theorem order_expiry_semantics (o : Order) (i : StateInstant) :
    (Order.is_expired o = true ↔
      o.expiry_block ≠ 0 ∧ o.expiry_block ≤ o.instant.block_number)
    ∧ (o.expiry_block = 0 →
        Order.is_expired o = false ∧ Order.update_if_expired o i = (false, o)) := by
  constructor
  · simp [Order.is_expired]
  · intro h
    refine ⟨by simp [Order.is_expired, h], ?_⟩
    simp [Order.update_if_expired, h]

/-- A concrete never-expiring order (`expiry_block = 0`) used to
instantiate the expiry theorem. -/
def orderNoExpiry : Order :=
  { instant := { block_number := 30, block_timestamp := 1000 }
    request_id := none, client_order_id := none, order_id := 5
    otype := .OpenShort, account_id := 0, price := 100000, size := 3
    placed_size := some 3, expiry_block := 0, leverage := 10
    post_only := none, fill_or_kill := none, immediate_or_cancel := none
    prev_order_id := none, next_order_id := none }

/-- Instantiation of the expiry theorem at `expiry_block = 0` and a much
later instant: not expired, no transition, order unchanged. -/
theorem order_expiry_semantics_witness :
    orderNoExpiry.expiry_block = 0
    ∧ Order.is_expired orderNoExpiry = false
    ∧ Order.update_if_expired orderNoExpiry { block_number := 50, block_timestamp := 2000 } =
        (false, orderNoExpiry) := by
  have h := (order_expiry_semantics orderNoExpiry
    { block_number := 50, block_timestamp := 2000 }).2 rfl
  exact ⟨rfl, h.1, h.2⟩

/-! ## Zero order id handling (C2) and taker-fill correlation (C4) -/

/-- A processor whose config tracks perpetual 16 (collateral scale 6,
price scale 1, size scale 3), with empty per-transaction scratch state. -/
def procW : TradeProcessor :=
  { config := { collateral_decimals := 6,
                perpetuals := [(16, { price_decimals := 1, size_decimals := 3 })] }
    order_context := none
    pending_maker_fills := []
    prev_tx_index := none }

/-- Provenance of a decoded raw event used as a concrete input. -/
def evW : EventContext Nat :=
  { tx_hash := 777, tx_index := 0, log_index := 2, event := 0 }

/-- A `MakerOrderFilled` event delivering order id 0 on the configured
perpetual 16. -/
def fillZeroW : MakerOrderFilledEv :=
  { accountId := 3, orderId := 0, perpId := 16, pricePNS := 1000000,
    lotLNS := 100, feeCNS := 5000 }

/-- C2 (bug evidence): `Order.from_snapshot` surfaces
`OrderParseError::ZeroOrderId` on every raw order with id 0 and never
panics there, but `TradeProcessor::handle_maker_fill` panics
(`expect("non-zero maker order ID")`) at the concrete `MakerOrderFilled`
event carrying order id 0 on a configured perpetual, instead of surfacing
a typed error or skipping. -/
theorem zero_order_id_from_snapshot_vs_maker_fill :
    (∀ (instant : StateInstant) (prev next ty acc ons lns exp lev : Nat)
        (bp : ℚ) (pd sd ld : Nat),
      Order.from_snapshot instant
        { orderId := 0, prevOrderId := prev, nextOrderId := next,
          orderType := ty, accountId := acc, priceONS := ons, lotLNS := lns,
          expiryBlock := exp, leverageHdths := lev } bp pd sd ld =
        .ok (.error .zeroOrderId))
    ∧ TradeProcessor.handle_maker_fill procW evW fillZeroW =
        .error (.panicked "non-zero maker order ID") := by
  constructor
  · intro instant prev next ty acc ons lns exp lev bp pd sd ld
    rfl
  · rfl

/-- C4: processing `TakerOrderFilled` with a non-empty pending buffer. The
buffer is cleared in every case; a tx-hash mismatch among the buffered
maker fills suppresses the trade; with a tracked order context and all
hashes matching the taker's, exactly one trade is emitted aggregating all
buffered fills with the context's account and side and the taker's fee —
but with no tracked order context, no trade is emitted even when every
hash matches. -/
theorem handle_taker_fill_tx_correlation (st : TradeProcessor)
    (event : EventContext Nat) (e : TakerOrderFilledEv)
    (m0 : PendingMakerFill) (ms : List PendingMakerFill)
    (hp : st.pending_maker_fills = m0 :: ms) :
    (TradeProcessor.handle_taker_fill st event e).2 =
      { st with pending_maker_fills := [] }
    ∧ ((st.pending_maker_fills.all fun m => m.tx_hash = event.tx_hash) = false →
        (TradeProcessor.handle_taker_fill st event e).1 = none)
    ∧ (st.order_context = none →
        (TradeProcessor.handle_taker_fill st event e).1 = none)
    ∧ (∀ ctx, st.order_context = some ctx →
        (st.pending_maker_fills.all fun m => m.tx_hash = event.tx_hash) = true →
        (TradeProcessor.handle_taker_fill st event e).1 =
          some (event.pass
            { perpetual_id := m0.perpetual_id
              taker_account_id := ctx.account_id
              taker_side := ctx.side
              taker_fee := Converter.from_unsigned st.config.collateral_decimals e.feeCNS
              maker_fills := st.pending_maker_fills.map fun m =>
                { log_index := m.log_index
                  maker_account_id := m.maker_account_id
                  maker_order_id := m.maker_order_id
                  price := m.price
                  size := m.size
                  fee := m.maker_fee } })) := by
  refine ⟨?_, ?_, ?_, ?_⟩
  · cases hctx : st.order_context with
    | none => simp [TradeProcessor.handle_taker_fill, hp, hctx]
    | some ctx =>
      simp [TradeProcessor.handle_taker_fill, hp, hctx]
      split <;> rfl
  · intro hall
    cases hctx : st.order_context with
    | none => simp [TradeProcessor.handle_taker_fill, hp, hctx]
    | some ctx =>
      have hP : ¬(m0.tx_hash = event.tx_hash ∧ ∀ x ∈ ms, x.tx_hash = event.tx_hash) := by
        rw [hp] at hall
        intro hc
        simp [List.all_cons, List.all_eq_true, hc.1] at hall
        obtain ⟨x, hx, hnx⟩ := hall
        exact hnx (hc.2 x hx)
      simp [TradeProcessor.handle_taker_fill, hp, hctx, hP]
  · intro hctx
    simp [TradeProcessor.handle_taker_fill, hp, hctx]
  · intro ctx hctx hall
    have hP : m0.tx_hash = event.tx_hash ∧ ∀ x ∈ ms, x.tx_hash = event.tx_hash := by
      rw [hp] at hall
      simpa [List.all_cons, List.all_eq_true] using hall
    simp [TradeProcessor.handle_taker_fill, hp, hctx, hP.1]
    rw [if_pos hP.2]

/-- A processor state with one pending maker fill from tx 777 and a tracked
taker context. -/
def stCtxW : TradeProcessor :=
  { config := procW.config
    order_context := some { account_id := 9, side := .Bid }
    pending_maker_fills :=
      [{ tx_hash := 777, log_index := 2, perpetual_id := 16,
         maker_account_id := 3, maker_order_id := 4, price := 100,
         size := 1, maker_fee := 2 }]
    prev_tx_index := some 0 }

/-- Instantiation of the taker-fill correlation theorem: with a matching
tx hash and a tracked context, one aggregated trade is emitted and the
buffer is cleared. -/
theorem handle_taker_fill_tx_correlation_witness :
    stCtxW.pending_maker_fills =
      { tx_hash := 777, log_index := 2, perpetual_id := 16,
        maker_account_id := 3, maker_order_id := 4, price := 100,
        size := 1, maker_fee := 2 } :: []
    ∧ (TradeProcessor.handle_taker_fill stCtxW evW { feeCNS := 5000 }).2 =
        { stCtxW with pending_maker_fills := [] }
    ∧ (TradeProcessor.handle_taker_fill stCtxW evW { feeCNS := 5000 }).1 =
        some (evW.pass
          { perpetual_id := 16
            taker_account_id := 9
            taker_side := .Bid
            taker_fee := Converter.from_unsigned 6 5000
            maker_fills := stCtxW.pending_maker_fills.map fun m =>
              { log_index := m.log_index
                maker_account_id := m.maker_account_id
                maker_order_id := m.maker_order_id
                price := m.price
                size := m.size
                fee := m.maker_fee } }) := by
  have h := handle_taker_fill_tx_correlation stCtxW evW { feeCNS := 5000 }
    { tx_hash := 777, log_index := 2, perpetual_id := 16,
      maker_account_id := 3, maker_order_id := 4, price := 100,
      size := 1, maker_fee := 2 } [] rfl
  exact ⟨rfl, h.1, h.2.2.2 { account_id := 9, side := .Bid } rfl rfl⟩

/-- The same pending fill but with no tracked order context. -/
def stNoCtxW : TradeProcessor :=
  { config := procW.config
    order_context := none
    pending_maker_fills := stCtxW.pending_maker_fills
    prev_tx_index := some 0 }

/-- C4 counterexample: a non-empty buffer whose single fill has exactly the
taker's tx hash, yet no trade is emitted (the order context is absent) —
refuting "otherwise exactly one Trade is emitted". -/
theorem handle_taker_fill_no_context_counterexample :
    stNoCtxW.pending_maker_fills ≠ []
    ∧ (stNoCtxW.pending_maker_fills.all fun m => m.tx_hash = evW.tx_hash) = true
    ∧ (TradeProcessor.handle_taker_fill stNoCtxW evW { feeCNS := 5000 }).1 = none
    ∧ (TradeProcessor.handle_taker_fill stNoCtxW evW { feeCNS := 5000 }).2.pending_maker_fills
        = [] := by
  refine ⟨by simp [stNoCtxW, stCtxW], rfl, rfl, rfl⟩

/-! ## Account state (`crates/sdk/src/state/account.rs`) -/

/-- `state::PositionType`. -/
inductive PositionType where
  | Long
  | Short
deriving DecidableEq, Repr

/-- `state::Position` — open perpetual contract position (decimal values as
rationals; signed PnL values are rationals as well). -/
structure Position where
  instant : StateInstant
  perpetual_id : Nat
  account_id : Nat
  ptype : PositionType
  entry_price : ℚ
  size : ℚ
  deposit : ℚ
  pnl : ℚ
  delta_pnl : ℚ
  premium_pnl : ℚ
deriving DecidableEq, Repr

/-- `state::Account` — balances, frozen flag, positions map (as an
association list), address abstracted to a number. -/
structure Account where
  instant : StateInstant
  id : Nat
  address : Nat
  balance : ℚ
  locked_balance : ℚ
  frozen : Bool
  positions : List (Nat × Position)
deriving DecidableEq, Repr

/-- `Account::available_balance` — zero when the locked balance exceeds the
balance (a valid on-contract state), the difference otherwise. -/
def Account.available_balance (a : Account) : ℚ :=
  if a.locked_balance > a.balance then 0
  else a.balance - a.locked_balance

/-- C6: for every account state, including locked_balance > balance,
`available_balance` equals `max 0 (balance − locked_balance)`: zero when
locked exceeds balance, the difference otherwise. -/
theorem available_balance_clamped (a : Account) :
    Account.available_balance a = max 0 (a.balance - a.locked_balance)
    ∧ (a.locked_balance > a.balance → Account.available_balance a = 0)
    ∧ (¬ a.locked_balance > a.balance →
        Account.available_balance a = a.balance - a.locked_balance) := by
  unfold Account.available_balance
  by_cases h : a.locked_balance > a.balance
  · rw [if_pos h]
    refine ⟨?_, fun _ => rfl, fun hc => absurd h hc⟩
    rw [max_eq_left]
    linarith
  · rw [if_neg h]
    refine ⟨?_, fun hc => absurd hc h, fun _ => rfl⟩
    rw [max_eq_right]
    simp only [gt_iff_lt, not_lt] at h
    linarith

/-- An account whose locked balance exceeds its balance. -/
def accOverlocked : Account :=
  { instant := { block_number := 10, block_timestamp := 100 }
    id := 1, address := 42, balance := 5, locked_balance := 8,
    frozen := false, positions := [] }

/-- Instantiation of the clamped available-balance theorem on an account
with balance 5 and locked balance 8: the available balance is 0. -/
theorem available_balance_clamped_witness :
    Account.available_balance accOverlocked = max 0 (accOverlocked.balance - accOverlocked.locked_balance)
    ∧ accOverlocked.locked_balance > accOverlocked.balance
    ∧ Account.available_balance accOverlocked = 0 :=
  ⟨(available_balance_clamped accOverlocked).1, by norm_num [accOverlocked],
   (available_balance_clamped accOverlocked).2.1 (by norm_num [accOverlocked])⟩

/-! ## Position bitmap (`perpetuals_with_position`, both revisions) -/

/-- `abi::dex::Exchange::PositionBitMap` — four 256-bit banks, each
represented as a natural number read through `Nat.testBit` (`U256::bit`). -/
structure PositionBitMap where
  bank1 : Nat
  bank2 : Nat
  bank3 : Nat
  bank4 : Nat
deriving DecidableEq, Repr

/-- `U256::count_ones` — number of set bits among the 256 bits of a bank. -/
def countOnes256 (bank : Nat) : Nat :=
  ((List.range 256).filter fun i => bank.testBit i).length

/-- The per-bank contribution of `perpetuals_with_position`: ids
`offs + i` for every set bit offset `i` in `0..nbits`. -/
def bankPositions (offs nbits bank : Nat) : List Nat :=
  (List.range nbits).filterMap fun i =>
    if bank.testBit i then some (offs + i) else none

/-- `perpetuals_with_position` — IDs of perpetuals with positions according
to the bitmap: bank 1 contributes base 0 with offsets `0..U256::BITS-3`,
banks 2–4 contribute bases 253, 509, 765 with all 256 offsets; banks with
no set bit are filtered out first. -/
def perpetuals_with_position (bitmap : PositionBitMap) : List Nat :=
  let banks : List (Nat × Nat × Nat × Nat) :=
    [(0, 256 - 3, bitmap.bank1, countOnes256 bitmap.bank1),
     (253, 256, bitmap.bank2, countOnes256 bitmap.bank2),
     (509, 256, bitmap.bank3, countOnes256 bitmap.bank3),
     (765, 256, bitmap.bank4, countOnes256 bitmap.bank4)]
  (banks.filter fun b => 0 < b.2.2.2).flatMap fun b =>
    bankPositions b.1 b.2.1 b.2.2.1

theorem mem_bankPositions {offs nbits bank p : Nat} :
    p ∈ bankPositions offs nbits bank ↔
      ∃ i, i < nbits ∧ bank.testBit i = true ∧ p = offs + i := by
  simp only [bankPositions, List.mem_filterMap, List.mem_range]
  constructor
  · rintro ⟨i, hi, hsome⟩
    by_cases hb : bank.testBit i = true
    · rw [if_pos hb] at hsome
      exact ⟨i, hi, hb, (Option.some_inj.mp hsome).symm⟩
    · rw [if_neg hb] at hsome
      exact absurd hsome (Option.noConfusion)
  · rintro ⟨i, hi, hb, hp⟩
    exact ⟨i, hi, by rw [if_pos hb, hp]⟩

theorem countOnes256_pos {bank i : Nat} (hi : i < 256) (hb : bank.testBit i = true) :
    0 < countOnes256 bank := by
  have : i ∈ (List.range 256).filter fun j => bank.testBit j := by
    simp [List.mem_filter, List.mem_range, hi, hb]
  have hne : ((List.range 256).filter fun j => bank.testBit j) ≠ [] :=
    List.ne_nil_of_mem this
  simpa [countOnes256, List.length_pos] using hne

/-- C8: membership in `perpetuals_with_position` is exactly a set bit in
the corresponding bank: bank 1 (base 0) contributes offsets 0..253 only,
bank 2 base 253, bank 3 base 509, bank 4 base 765, the four banks covering
perpetual ids [0..253), [253..509), [509..765), [765..1021). -/
theorem perpetuals_with_position_spec (bm : PositionBitMap) (p : Nat) :
    p ∈ perpetuals_with_position bm ↔
      (p < 253 ∧ bm.bank1.testBit p = true)
      ∨ (253 ≤ p ∧ p < 509 ∧ bm.bank2.testBit (p - 253) = true)
      ∨ (509 ≤ p ∧ p < 765 ∧ bm.bank3.testBit (p - 509) = true)
      ∨ (765 ≤ p ∧ p < 1021 ∧ bm.bank4.testBit (p - 765) = true) := by
  simp only [perpetuals_with_position]
  rw [List.mem_flatMap]
  constructor
  · rintro ⟨b, hb, hp⟩
    rw [List.mem_filter] at hb
    obtain ⟨hmem, _⟩ := hb
    simp only [List.mem_cons, List.not_mem_nil, or_false] at hmem
    rcases hmem with h | h | h | h <;> subst h <;>
      obtain ⟨i, hi, hbit, rfl⟩ := mem_bankPositions.mp hp <;>
      dsimp only at hi hbit ⊢
    · exact Or.inl ⟨by omega, by simpa using hbit⟩
    · refine Or.inr (Or.inl ⟨by omega, by omega, ?_⟩)
      rw [show 253 + i - 253 = i by omega]
      exact hbit
    · refine Or.inr (Or.inr (Or.inl ⟨by omega, by omega, ?_⟩))
      rw [show 509 + i - 509 = i by omega]
      exact hbit
    · refine Or.inr (Or.inr (Or.inr ⟨by omega, by omega, ?_⟩))
      rw [show 765 + i - 765 = i by omega]
      exact hbit
  · intro h
    rcases h with ⟨hlt, hbit⟩ | ⟨hge, hlt, hbit⟩ | ⟨hge, hlt, hbit⟩ | ⟨hge, hlt, hbit⟩
    · refine ⟨(0, 256 - 3, bm.bank1, countOnes256 bm.bank1), ?_, ?_⟩
      · rw [List.mem_filter]
        exact ⟨by simp, by simpa using countOnes256_pos (show p < 256 by omega) hbit⟩
      · show p ∈ bankPositions 0 (256 - 3) bm.bank1
        exact mem_bankPositions.mpr ⟨p, by omega, hbit, by omega⟩
    · refine ⟨(253, 256, bm.bank2, countOnes256 bm.bank2), ?_, ?_⟩
      · rw [List.mem_filter]
        exact ⟨by simp, by simpa using countOnes256_pos (show p - 253 < 256 by omega) hbit⟩
      · show p ∈ bankPositions 253 256 bm.bank2
        exact mem_bankPositions.mpr ⟨p - 253, by omega, hbit, by omega⟩
    · refine ⟨(509, 256, bm.bank3, countOnes256 bm.bank3), ?_, ?_⟩
      · rw [List.mem_filter]
        exact ⟨by simp, by simpa using countOnes256_pos (show p - 509 < 256 by omega) hbit⟩
      · show p ∈ bankPositions 509 256 bm.bank3
        exact mem_bankPositions.mpr ⟨p - 509, by omega, hbit, by omega⟩
    · refine ⟨(765, 256, bm.bank4, countOnes256 bm.bank4), ?_, ?_⟩
      · rw [List.mem_filter]
        exact ⟨by simp, by simpa using countOnes256_pos (show p - 765 < 256 by omega) hbit⟩
      · show p ∈ bankPositions 765 256 bm.bank4
        exact mem_bankPositions.mpr ⟨p - 765, by omega, hbit, by omega⟩

/-! ## Perpetual state (`src/state/perpetual.rs`) -/

/-- `HashMap::insert` on an association list: replace in place if the key
is present, append otherwise. -/
def mapInsert [DecidableEq κ] : List (κ × β) → κ → β → List (κ × β)
  | [], k, v => [(k, v)]
  | (k2, v2) :: rest, k, v =>
    if k = k2 then (k, v) :: rest else (k2, v2) :: mapInsert rest k v

/-- `HashMap::remove` on an association list. -/
def mapRemove [DecidableEq κ] : List (κ × β) → κ → List (κ × β)
  | [], _ => []
  | (k2, v2) :: rest, k => if k = k2 then rest else (k2, v2) :: mapRemove rest k

theorem mapGet_mapInsert [DecidableEq κ] (m : List (κ × β)) (k k2 : κ) (v : β) :
    mapGet (mapInsert m k v) k2 = if k2 = k then some v else mapGet m k2 := by
  induction m with
  | nil =>
    by_cases h : k2 = k <;> simp [mapInsert, mapGet, h]
  | cons kv rest ih =>
    obtain ⟨k3, v3⟩ := kv
    by_cases h1 : k = k3
    · subst h1
      by_cases h2 : k2 = k <;> simp [mapInsert, mapGet, h2]
    · by_cases h2 : k2 = k3
      · subst h2
        have h2' : ¬k2 = k := fun h => h1 h.symm
        simp [mapInsert, h1, mapGet, h2']
      · simp [mapInsert, h1, mapGet, h2, ih]

/-- Modelled from the spec: the `L2Book` owned by the old-revision
`Perpetual` is not among the provided sources. Following §4.2 it keeps one
level per (side, price) holding the aggregate size and the order count. -/
structure L2Book where
  levels : List ((OrderSide × ℚ) × (ℚ × Nat))
deriving DecidableEq, Repr

/-- Modelled from the spec: `L2Book::add_order` adds the order's size at
its (side, price) level, creating the level if absent (§4.2). -/
def L2Book.add_order (b : L2Book) (o : Order) : L2Book :=
  match mapGet b.levels (o.otype.side, o.price) with
  | none => { levels := mapInsert b.levels (o.otype.side, o.price) (o.size, 1) }
  | some (sz, n) =>
    { levels := mapInsert b.levels (o.otype.side, o.price) (sz + o.size, n + 1) }

/-- Modelled from the spec: `L2Book::update_order(order, old_size)` adjusts
the aggregate size of the order's level in place (§4.2; called only when
the price is unchanged). -/
def L2Book.update_order (b : L2Book) (o : Order) (old_size : ℚ) : L2Book :=
  match mapGet b.levels (o.otype.side, o.price) with
  | none => b
  | some (sz, n) =>
    { levels := mapInsert b.levels (o.otype.side, o.price) (sz - old_size + o.size, n) }

/-- Modelled from the spec: `L2Book::remove_order` subtracts the order's
size from its level and deletes the level when its order count reaches 0
(§4.2). -/
def L2Book.remove_order (b : L2Book) (o : Order) : L2Book :=
  match mapGet b.levels (o.otype.side, o.price) with
  | none => b
  | some (sz, n) =>
    if n ≤ 1 then { levels := mapRemove b.levels (o.otype.side, o.price) }
    else { levels := mapInsert b.levels (o.otype.side, o.price) (sz - o.size, n - 1) }

/-- `state::Perpetual` — contract metadata, market data and order book.
Converters are represented by their decimal scales; decimal values by
rationals; the orders `HashMap` by an association list. -/
structure Perpetual where
  instant : StateInstant
  id : Nat
  name : String
  symbol : String
  is_paused : Bool
  price_decimals : Nat
  size_decimals : Nat
  leverage_decimals : Nat
  fee_decimals : Nat
  base_price : ℚ
  maker_fee : ℚ
  taker_fee : ℚ
  initial_margin : ℚ
  maintenance_margin : ℚ
  last_price : ℚ
  last_price_block : Option Nat
  last_price_timestamp : Nat
  mark_price : ℚ
  mark_price_block : Option Nat
  mark_price_timestamp : Nat
  oracle_price : ℚ
  oracle_price_block : Option Nat
  oracle_price_timestamp : Nat
  funding_start_block : Nat
  price_max_age : Nat
  orders : List (Nat × Order)
  l2_book : L2Book
  open_interest : ℚ
deriving DecidableEq, Repr

/-- `Perpetual::add_order` — adds to the L2 book and inserts into the
orders map, unconditionally. -/
def Perpetual.add_order (p : Perpetual) (o : Order) : Perpetual :=
  let p := { p with l2_book := p.l2_book.add_order o }
  { p with orders := mapInsert p.orders o.order_id o }

/-- `Perpetual::update_order` — on a present id, adjust the level in place
when the price is unchanged, otherwise remove and re-add, then store the
new order; on an absent id return `OrderNotFound` leaving the state as it
was (the Rust mutates `&mut self` only on the occupied branch). -/
def Perpetual.update_order (p : Perpetual) (o : Order) :
    Except DexError Unit × Perpetual :=
  match mapGet p.orders o.order_id with
  | some prev =>
    let book :=
      if prev.price ≠ o.price then (p.l2_book.remove_order prev).add_order o
      else p.l2_book.update_order o prev.size
    (.ok (), { p with l2_book := book, orders := mapInsert p.orders o.order_id o })
  | none => (.error (.orderNotFound p.id o.order_id), p)

/-- `Perpetual::remove_order` — on a present id, unlink from the book and
remove from the orders map, returning the removed order; on an absent id
return `OrderNotFound` leaving the state as it was. -/
def Perpetual.remove_order (p : Perpetual) (order_id : Nat) :
    Except DexError Order × Perpetual :=
  match mapGet p.orders order_id with
  | some ord =>
    (.ok ord, { p with l2_book := p.l2_book.remove_order ord,
                       orders := mapRemove p.orders order_id })
  | none => (.error (.orderNotFound p.id order_id), p)

/-- A fresh perpetual with no orders. -/
def perpEmptyW : Perpetual :=
  { instant := { block_number := 1, block_timestamp := 10 }
    id := 16, name := "BTC-PERP", symbol := "BTC", is_paused := false
    price_decimals := 1, size_decimals := 3, leverage_decimals := 2, fee_decimals := 5
    base_price := 0, maker_fee := 0, taker_fee := 0
    initial_margin := 0, maintenance_margin := 0
    last_price := 0, last_price_block := none, last_price_timestamp := 0
    mark_price := 0, mark_price_block := none, mark_price_timestamp := 0
    oracle_price := 0, oracle_price_block := none, oracle_price_timestamp := 0
    funding_start_block := 0, price_max_age := 60
    orders := [], l2_book := { levels := [] }, open_interest := 0 }

/-- The fresh perpetual after placing the order with id 5. -/
def perpW : Perpetual := Perpetual.add_order perpEmptyW orderNoExpiry

/-- A second, different order carrying the already-used id 5. -/
def ord5b : Order := { orderNoExpiry with price := 99800, size := 2 }

/-- An update of order 5 with unchanged price and decreased size. -/
def ord5same : Order := { orderNoExpiry with size := 1 }

/-- The spec's §4.2 error for placing a duplicate order id. -/
inductive BookContractError where
  | duplicateOrderId (order_id : Nat)
deriving DecidableEq, Repr

/-- The claim's contract for `add_order`, stated from the spec's words
(§4.2: insert at the order's price level, "Error if an order with the same
id already exists") — the reference `Perpetual.add_order` is compared
against. -/
def add_order_claim_contract (p : Perpetual) (o : Order) :
    Except BookContractError Perpetual :=
  match mapGet p.orders o.order_id with
  | some _ => .error (.duplicateOrderId o.order_id)
  | none => .ok (Perpetual.add_order p o)

/-- C3 counterexample: on a book already holding order id 5, the claim
mandates a DuplicateOrderId error for a second order with id 5, but the
source's `add_order` returns no error at all — it silently overwrites the
existing entry with the new (different) order. -/
theorem add_order_duplicate_no_error_counterexample :
    mapGet perpW.orders ord5b.order_id = some orderNoExpiry
    ∧ add_order_claim_contract perpW ord5b = .error (.duplicateOrderId 5)
    ∧ mapGet (Perpetual.add_order perpW ord5b).orders 5 = some ord5b
    ∧ ord5b ≠ orderNoExpiry := by
  refine ⟨rfl, rfl, rfl, ?_⟩
  intro h
  have : ord5b.size = orderNoExpiry.size := by rw [h]
  norm_num [ord5b, orderNoExpiry] at this

/-- C3 amended: `Perpetual::add_order` performs no duplicate-id check and
never returns an error: for every book state and order — the already-present
id included — it adds the order at its (side, price) level of the L2 book
and maps the id to the new order, overwriting any existing entry; all other
ids and the remaining perpetual fields are unaffected. -/
theorem add_order_unconditional_insert (p : Perpetual) (o : Order) (k : Nat) :
    (Perpetual.add_order p o).l2_book = L2Book.add_order p.l2_book o
    ∧ (Perpetual.add_order p o).id = p.id
    ∧ (Perpetual.add_order p o).instant = p.instant
    ∧ mapGet (Perpetual.add_order p o).orders k =
        (if k = o.order_id then some o else mapGet p.orders k) :=
  ⟨rfl, rfl, rfl, mapGet_mapInsert p.orders o.order_id k o⟩

/-- C9: `update_order` and `remove_order` against an absent order id
return `OrderNotFound(perpetual id, order id)` and leave the perpetual —
its orders map and book included — unchanged; on a present id,
`update_order` with an unchanged price adjusts the level aggregate in
place, and with a changed price removes and re-adds the order. -/
theorem update_remove_order_semantics (p : Perpetual) (o : Order) (oid : Nat) :
    (mapGet p.orders o.order_id = none →
      Perpetual.update_order p o = (.error (.orderNotFound p.id o.order_id), p))
    ∧ (mapGet p.orders oid = none →
      Perpetual.remove_order p oid = (.error (.orderNotFound p.id oid), p))
    ∧ (∀ prev, mapGet p.orders o.order_id = some prev → prev.price = o.price →
        Perpetual.update_order p o =
          (.ok (), { p with l2_book := L2Book.update_order p.l2_book o prev.size,
                            orders := mapInsert p.orders o.order_id o }))
    ∧ (∀ prev, mapGet p.orders o.order_id = some prev → prev.price ≠ o.price →
        Perpetual.update_order p o =
          (.ok (), { p with l2_book := L2Book.add_order (L2Book.remove_order p.l2_book prev) o,
                            orders := mapInsert p.orders o.order_id o })) := by
  refine ⟨?_, ?_, ?_, ?_⟩
  · intro h
    simp [Perpetual.update_order, h]
  · intro h
    simp [Perpetual.remove_order, h]
  · intro prev h hpr
    simp [Perpetual.update_order, h, hpr]
  · intro prev h hpr
    simp [Perpetual.update_order, h, hpr]

/-- Instantiation of the order-update semantics: both operations error
with `OrderNotFound` on the fresh perpetual and leave it unchanged, and an
unchanged-price update of the present order 5 succeeds with an in-place
aggregate adjustment. -/
theorem update_remove_order_semantics_witness :
    mapGet perpEmptyW.orders ord5b.order_id = none
    ∧ Perpetual.update_order perpEmptyW ord5b =
        (.error (.orderNotFound perpEmptyW.id ord5b.order_id), perpEmptyW)
    ∧ Perpetual.remove_order perpEmptyW 9 =
        (.error (.orderNotFound perpEmptyW.id 9), perpEmptyW)
    ∧ mapGet perpW.orders ord5same.order_id = some orderNoExpiry
    ∧ Perpetual.update_order perpW ord5same =
        (.ok (), { perpW with
          l2_book := L2Book.update_order perpW.l2_book ord5same orderNoExpiry.size,
          orders := mapInsert perpW.orders ord5same.order_id ord5same }) := by
  have h1 := update_remove_order_semantics perpEmptyW ord5b 9
  have h2 := update_remove_order_semantics perpW ord5same 0
  exact ⟨rfl, h1.1 rfl, h1.2.1 rfl, rfl, h2.2.2.1 orderNoExpiry rfl rfl⟩

/-! ## Perpetual parameter mutators (C10) -/

/-- `Perpetual::update_paused`. -/
def Perpetual.update_paused (p : Perpetual) (instant : StateInstant) (paused : Bool) :
    Perpetual :=
  let p := { p with is_paused := paused }
  { p with instant := instant }

/-- `Perpetual::update_maker_fee`. -/
def Perpetual.update_maker_fee (p : Perpetual) (instant : StateInstant) (maker_fee : ℚ) :
    Perpetual :=
  let p := { p with maker_fee := maker_fee }
  { p with instant := instant }

/-- `Perpetual::update_taker_fee`. -/
def Perpetual.update_taker_fee (p : Perpetual) (instant : StateInstant) (taker_fee : ℚ) :
    Perpetual :=
  let p := { p with taker_fee := taker_fee }
  { p with instant := instant }

/-- `Perpetual::update_initial_margin`. -/
def Perpetual.update_initial_margin (p : Perpetual) (instant : StateInstant)
    (initial_margin : ℚ) : Perpetual :=
  let p := { p with initial_margin := initial_margin }
  { p with instant := instant }

/-- `Perpetual::update_maintenance_margin`. -/
def Perpetual.update_maintenance_margin (p : Perpetual) (instant : StateInstant)
    (maintenance_margin : ℚ) : Perpetual :=
  let p := { p with maintenance_margin := maintenance_margin }
  { p with instant := instant }

/-- `Perpetual::update_last_price`. -/
def Perpetual.update_last_price (p : Perpetual) (instant : StateInstant) (last_price : ℚ) :
    Perpetual :=
  let p := { p with last_price := last_price }
  let p := { p with last_price_block := some instant.block_number }
  let p := { p with last_price_timestamp := instant.block_timestamp }
  { p with instant := instant }

/-- `Perpetual::update_mark_price`. -/
def Perpetual.update_mark_price (p : Perpetual) (instant : StateInstant) (mark_price : ℚ) :
    Perpetual :=
  let p := { p with mark_price := mark_price }
  let p := { p with mark_price_block := some instant.block_number }
  let p := { p with mark_price_timestamp := instant.block_timestamp }
  { p with instant := instant }

/-- `Perpetual::update_oracle_price`. -/
def Perpetual.update_oracle_price (p : Perpetual) (instant : StateInstant)
    (oracle_price : ℚ) : Perpetual :=
  let p := { p with oracle_price := oracle_price }
  let p := { p with oracle_price_block := some instant.block_number }
  let p := { p with oracle_price_timestamp := instant.block_timestamp }
  { p with instant := instant }

/-- `Perpetual::update_price_max_age`. -/
def Perpetual.update_price_max_age (p : Perpetual) (instant : StateInstant)
    (price_max_age : Nat) : Perpetual :=
  let p := { p with price_max_age := price_max_age }
  { p with instant := instant }

/-- `Perpetual::update_open_interest` — subtracts the previous size and
adds the new size. -/
def Perpetual.update_open_interest (p : Perpetual) (instant : StateInstant)
    (prev_size new_size : ℚ) : Perpetual :=
  let p := { p with open_interest := p.open_interest - prev_size }
  let p := { p with open_interest := p.open_interest + new_size }
  { p with instant := instant }

/-- C10: every `update_*` mutator of `Perpetual` equals the record update
that sets exactly its target field — plus, for the price mutators, the
matching `*_price_block` and `*_price_timestamp`, and for open interest
the delta `− prev_size + new_size` — together with the perpetual's
`instant`, leaving every other field of the record unchanged. -/
theorem perpetual_mutators_frame (p : Perpetual) (i : StateInstant)
    (b : Bool) (q : ℚ) (n : Nat) (prev_size new_size : ℚ) :
    Perpetual.update_paused p i b = { p with is_paused := b, instant := i }
    ∧ Perpetual.update_maker_fee p i q = { p with maker_fee := q, instant := i }
    ∧ Perpetual.update_taker_fee p i q = { p with taker_fee := q, instant := i }
    ∧ Perpetual.update_initial_margin p i q = { p with initial_margin := q, instant := i }
    ∧ Perpetual.update_maintenance_margin p i q =
        { p with maintenance_margin := q, instant := i }
    ∧ Perpetual.update_last_price p i q =
        { p with last_price := q, last_price_block := some i.block_number,
                 last_price_timestamp := i.block_timestamp, instant := i }
    ∧ Perpetual.update_mark_price p i q =
        { p with mark_price := q, mark_price_block := some i.block_number,
                 mark_price_timestamp := i.block_timestamp, instant := i }
    ∧ Perpetual.update_oracle_price p i q =
        { p with oracle_price := q, oracle_price_block := some i.block_number,
                 oracle_price_timestamp := i.block_timestamp, instant := i }
    ∧ Perpetual.update_price_max_age p i n = { p with price_max_age := n, instant := i }
    ∧ Perpetual.update_open_interest p i prev_size new_size =
        { p with open_interest := p.open_interest - prev_size + new_size, instant := i } :=
  ⟨rfl, rfl, rfl, rfl, rfl, rfl, rfl, rfl, rfl, rfl⟩

end DexSdk
